import Mathlib

/-!
Shallow embedding of the lunatic process-runtime core:
`src/state.rs` (the `HashMapId` resource table and per-process `State`),
`src/wasi/api.rs` (the legacy WASI shim host functions), and
`crates/lunatic-distributed-api/src/lib.rs` (the distributed host functions).

Machine integers (`u64`, `u32`, `usize`) are modelled as `Nat` with an
explicit `% 2^w` wherever the Rust code can overflow or truncate.
-/

namespace Lunatic

/-- `2^64`, the modulus of Rust's `u64` arithmetic. -/
def U64 : Nat := 2 ^ 64

/-- `2^32`, the modulus of Rust's `u32` arithmetic (also the modulus of an
`as u32` cast). -/
def U32 : Nat := 2 ^ 32

/-! ## The resource table: `HashMapId<T>` (src/state.rs)

The backing `HashMap<u64, T>` is modelled as an association list with
map semantics: `storeInsert` replaces any existing binding for the key and
`eraseKey` deletes every binding for the key, so a key is bound at most once
along any run. -/

/-- Lookup of a key in the association-list model of `HashMap<u64, T>`. -/
def storeGet {T : Type} : List (Nat × T) → Nat → Option T
  | [], _ => none
  | (k, v) :: rest, id => if k = id then some v else storeGet rest id

/-- Deletion of a key, the model of `HashMap::remove` on the backing map. -/
def eraseKey {T : Type} (id : Nat) : List (Nat × T) → List (Nat × T)
  | [] => []
  | (k, v) :: rest => if k = id then eraseKey id rest else (k, v) :: eraseKey id rest

/-- Insertion with replacement, the model of `HashMap::insert`. -/
def storeInsert {T : Type} (k : Nat) (v : T) (s : List (Nat × T)) : List (Nat × T) :=
  (k, v) :: eraseKey k s

/-- `HashMapId<T>`: HashMap wrapper with incremental ID (u64) assignment
(src/state.rs). -/
structure HashMapId (T : Type) where
  id_seed : Nat
  store : List (Nat × T)

/-- `HashMapId::new`: seed 0, empty map. -/
def HashMapId.new {T : Type} : HashMapId T := ⟨0, []⟩

/-- `HashMapId::add`: returns the current seed as the fresh ID, inserts the
item under it, and increments the seed (u64 arithmetic, hence `% U64`). -/
def HashMapId.add {T : Type} (m : HashMapId T) (item : T) : Nat × HashMapId T :=
  (m.id_seed, ⟨(m.id_seed + 1) % U64, storeInsert m.id_seed item m.store⟩)

/-- `HashMapId::remove`: removes and returns the binding; the seed is
untouched. -/
def HashMapId.remove {T : Type} (m : HashMapId T) (id : Nat) : Option T × HashMapId T :=
  (storeGet m.store id, ⟨m.id_seed, eraseKey id m.store⟩)

/-- `HashMapId::get`. -/
def HashMapId.get {T : Type} (m : HashMapId T) (id : Nat) : Option T :=
  storeGet m.store id

/-! ### Operation sequences over one table -/

/-- One guest-visible operation on a resource table. -/
inductive TableOp (T : Type) where
  | add (item : T)
  | remove (id : Nat)
deriving DecidableEq

/-- Run a sequence of operations, threading the table state. -/
def applyOps {T : Type} : HashMapId T → List (TableOp T) → HashMapId T
  | m, [] => m
  | m, TableOp.add x :: rest => applyOps (m.add x).2 rest
  | m, TableOp.remove j :: rest => applyOps (m.remove j).2 rest

/-- The IDs handed back by the `add` calls of a run, in order. -/
def issuedIds {T : Type} : HashMapId T → List (TableOp T) → List Nat
  | _, [] => []
  | m, TableOp.add x :: rest => (m.add x).1 :: issuedIds (m.add x).2 rest
  | m, TableOp.remove j :: rest => issuedIds (m.remove j).2 rest

/-- Number of `add` operations in a sequence. -/
def addsCount {T : Type} : List (TableOp T) → Nat
  | [] => 0
  | TableOp.add _ :: rest => addsCount rest + 1
  | TableOp.remove _ :: rest => addsCount rest

/-- `hasRemove ops id`: some `remove id` occurs in `ops`. -/
def hasRemove {T : Type} : List (TableOp T) → Nat → Bool
  | [], _ => false
  | TableOp.add _ :: rest, id => hasRemove rest id
  | TableOp.remove j :: rest, id => j == id || hasRemove rest id

/-- Trace-level description of what `get id` must return after running `ops`
from a state that has already performed `k` adds: `some x` exactly when the
`add` numbered `id` (zero-based, so it returned ID `id`) occurs in `ops` with
item `x` and no `remove id` occurs after it. -/
def traceGet {T : Type} : Nat → List (TableOp T) → Nat → Option T
  | _, [], _ => none
  | k, TableOp.add x :: rest, id =>
      if k = id then (if hasRemove rest id then none else some x)
      else traceGet (k + 1) rest id
  | k, TableOp.remove _ :: rest, id => traceGet k rest id

/-! ## Distributed host functions (crates/lunatic-distributed-api/src/lib.rs) -/

/-- Modelled from the spec: `DistributedProcessState` and its control
registry live in the `lunatic-distributed` crate, which is not under
`src/`. Per the spec, the registry exposes a node-identifier list
(enumeration order), its length, and the self node identifier; node
identifiers are opaque unsigned 64-bit values. -/
structure DistributedProcessState where
  nodes : List Nat
  selfId : Nat
deriving DecidableEq

/-- Modelled from the spec: `control.node_count()` is the length of the
registry's node list. -/
def DistributedProcessState.node_count (d : DistributedProcessState) : Nat :=
  d.nodes.length

/-- Modelled from the spec: `control.node_ids()` is the registry's node
list in its enumeration order. -/
def DistributedProcessState.node_ids (d : DistributedProcessState) : List Nat :=
  d.nodes

/-- Modelled from the spec: `d.node_id()` is the identifier recorded as the
registry's self-entry. -/
def DistributedProcessState.node_id (d : DistributedProcessState) : Nat :=
  d.selfId

/-- `nodes_count` host function: the registry count when the instance has a
distributed capability (`distributed()` is `Ok`), otherwise 0; the `usize`
count is cast `as u32`, hence `% U32`. -/
def nodes_count (d : Option DistributedProcessState) : Nat :=
  (match d with
    | some s => s.node_count
    | none => 0) % U32

/-- `node_id` host function: the registry self identifier when a
distributed capability is attached, otherwise 0. -/
def node_id (d : Option DistributedProcessState) : Nat :=
  match d with
  | some s => s.node_id
  | none => 0

/-- The node-identifier list `get_nodes` reads: the registry's list when a
capability is attached, the empty vector otherwise
(`.map(|d| d.control.node_ids()).unwrap_or_else(|_| vec![])`). -/
def nodeIdsOf (d : Option DistributedProcessState) : List Nat :=
  match d with
  | some s => s.node_ids
  | none => []

/-- Little-endian bytes of one `u64` node identifier. The Rust code
reinterprets the host `Vec<u64>` in native byte order via
`align_to::<u8>()`; lunatic targets little-endian hosts. -/
def u64Bytes (n : Nat) : List Nat :=
  (List.range 8).map fun i => n / 2 ^ (8 * i) % 256

/-- The byte image of the registry's node-identifier vector. -/
def nodeBytes (ids : List Nat) : List Nat :=
  (ids.map u64Bytes).flatten

/-- Overwrite `mem` starting at byte `ptr` with `src` (used only when
`ptr + src.length ≤ mem.length`). -/
def writeBytes (mem : List Nat) (ptr : Nat) (src : List Nat) : List Nat :=
  mem.take ptr ++ src ++ mem.drop (ptr + src.length)

/-- Outcome of a guest-memory host call: a wasm trap (`or_trap`), a Rust
panic (`copy_from_slice` aborts the call on a length mismatch without
returning a status), or a normal return together with the updated guest
memory. -/
inductive HostResult (α : Type) where
  | trap
  | panic
  | ok (mem : List Nat) (val : α)
deriving DecidableEq

/-- `get_nodes` host function: checks the destination byte range
`[nodes_ptr, nodes_ptr + 8 * nodes_len)` against the instance memory and
traps when it is out of range; then `copy_from_slice` copies the byte image
of the registry's node-identifier vector into that range, which succeeds
(returning status 2) only when the source and destination lengths agree and
panics otherwise. -/
def get_nodes (d : Option DistributedProcessState) (mem : List Nat)
    (nodes_ptr nodes_len : Nat) : HostResult Nat :=
  let node_ids := nodeIdsOf d
  if nodes_ptr + 8 * nodes_len ≤ mem.length then
    if (nodeBytes node_ids).length = 8 * nodes_len then
      HostResult.ok (writeBytes mem nodes_ptr (nodeBytes node_ids)) 2
    else HostResult.panic
  else HostResult.trap

/-! ## Legacy WASI shim (src/wasi/api.rs) -/

/-- The success status. Modelled from the spec: the numeric constants live
in `src/wasi/types.rs`, which is not under `src/`; the spec fixes 0 as
"success". -/
def WASI_ESUCCESS : Nat := 0

/-- The invalid-descriptor status (WASI `EINVAL`). Modelled from the spec:
a small unsigned integer distinct from the success status 0. -/
def WASI_EINVAL : Nat := 28

/-- The process-wide standard output and standard error streams, as the
byte sequences writes append to. -/
structure StdStreams where
  stdoutBytes : List Nat
  stderrBytes : List Nat
deriving DecidableEq

/-- `WasiState::fd_write`: descriptor 0 is write-invalid and returns
`(WASI_EINVAL, 0)`; descriptors 1 and 2 forward the vectored write to the
process-wide stdout/stderr and return `(WASI_ESUCCESS, written)`, where
`written` is the total byte count cast `as u32`; every other descriptor
hits the `panic!` arm (`none`): the call aborts without returning a
status. -/
def fd_write (s : StdStreams) (fd : Nat) (ciovs : List (List Nat)) :
    Option (Nat × Nat × StdStreams) :=
  match fd with
  | 0 => some (WASI_EINVAL, 0, s)
  | 1 => some (WASI_ESUCCESS, ciovs.flatten.length % U32,
      { s with stdoutBytes := s.stdoutBytes ++ ciovs.flatten })
  | 2 => some (WASI_ESUCCESS, ciovs.flatten.length % U32,
      { s with stderrBytes := s.stderrBytes ++ ciovs.flatten })
  | _ => none

/-- `pub struct WasiState {}` carries no fields. -/
structure WasiState where
deriving DecidableEq

/-- `WasiState::fd_close`: logs the call and returns `WASI_ESUCCESS` for
every descriptor; `&self` is never mutated, so the state comes back
unchanged. -/
def fd_close (s : WasiState) (fd : Nat) : Nat × WasiState :=
  (WASI_ESUCCESS, s)

/-- Modelled from the spec: the `WasiEnv` snapshot type lives in
`src/wasi/types.rs`, not under `src/`. A process-wide immutable list of
entries (invocation arguments, resp. environment variables), captured once
at process start; each entry is written with one terminator byte appended,
and `total_bytes` counts each entry's bytes plus its terminator. -/
structure WasiEnv where
  entries : List (List Nat)
deriving DecidableEq

/-- Modelled from the spec: `len()` is the number of snapshot entries. -/
def WasiEnv.len (e : WasiEnv) : Nat := e.entries.length

/-- Modelled from the spec: `total_bytes()` totals each entry's bytes plus
one terminator per entry. -/
def WasiEnv.total_bytes (e : WasiEnv) : Nat :=
  (e.entries.map fun kv => kv.length + 1).sum

/-- `args_sizes_get`: writes the entry count and total byte size. -/
def args_sizes_get (arg : WasiEnv) : Nat × Nat := (arg.len, arg.total_bytes)

/-- `environ_sizes_get`: same report for the environment snapshot. -/
def environ_sizes_get (env : WasiEnv) : Nat × Nat := (env.len, env.total_bytes)

/-- Modelled from the spec: the copying loop shared by `args_get` and
`environ_get`, expressed against buffer capacities — `slots` remaining
pointer-array slots and `cap` remaining arena bytes, with `base` the
current arena offset. For each entry the loop writes the current arena
cursor into the next pointer slot and the entry's bytes plus a terminator
byte 0 into the arena, advancing both cursors, and traps (`none`) as soon
as either cursor would run past the end of its buffer (the guest-memory
cursors `uptown_funk::types::Pointer::copy_slice`/`next` are not under
`src/`). On success it returns the pointer list and the arena bytes
written. -/
def writeEntries (base : Nat) : List (List Nat) → Nat → Nat → Option (List Nat × List Nat)
  | [], _, _ => some ([], [])
  | kv :: rest, slots, cap =>
    if slots = 0 then none
    else if kv.length + 1 ≤ cap then
      (writeEntries (base + kv.length + 1) rest (slots - 1) (cap - (kv.length + 1))).map
        fun pb => (base :: pb.1, (kv ++ [0]) ++ pb.2)
    else none

/-- `args_get`: walk the argument snapshot. -/
def args_get (arg : WasiEnv) (slots cap : Nat) : Option (List Nat × List Nat) :=
  writeEntries 0 arg.entries slots cap

/-- `environ_get`: walk the environment snapshot with the same loop. -/
def environ_get (env : WasiEnv) (slots cap : Nat) : Option (List Nat × List Nat) :=
  writeEntries 0 env.entries slots cap

/-- The arena offsets at which successive entries land: partial sums of
entry length plus one. -/
def entryOffsets (base : Nat) : List (List Nat) → List Nat
  | [] => []
  | kv :: rest => base :: entryOffsets (base + kv.length + 1) rest

/-- Each entry's bytes followed by its terminator, concatenated: the whole
arena image. -/
def terminatedBytes (entries : List (List Nat)) : List Nat :=
  (entries.map fun kv => kv ++ [0]).flatten

/-! ## Per-process state (src/state.rs `State`) -/

/-- The `wasmtime_wasi::WasiCtx` held by `State` is external to this
repository; only the construction path `State::new` uses is modelled: a
fresh builder on which `inherit_stdio` was called, then built. -/
structure WasiCtx where
  inheritsStdio : Bool
deriving DecidableEq

structure WasiCtxBuilder where
  inheritsStdio : Bool
deriving DecidableEq

def WasiCtxBuilder.new : WasiCtxBuilder := ⟨false⟩

def WasiCtxBuilder.inherit_stdio (b : WasiCtxBuilder) : WasiCtxBuilder :=
  { b with inheritsStdio := true }

def WasiCtxBuilder.build (b : WasiCtxBuilder) : WasiCtx := ⟨b.inheritsStdio⟩

/-- The `Resources` bundle: four independently numbered tables
(src/state.rs). The stored types (`EnvConfig`, `Environment`, `Module`,
`ProcessHandle`) are opaque to the claims, so they are type parameters. -/
structure Resources (C E M P : Type) where
  configs : HashMapId C
  environments : HashMapId E
  modules : HashMapId M
  processes : HashMapId P

/-- `Resources::default()`: `#[derive(Default)]`, so every field is
`HashMapId::default()`, which is `HashMapId::new()`. -/
def Resources.default (C E M P : Type) : Resources C E M P :=
  ⟨HashMapId.new, HashMapId.new, HashMapId.new, HashMapId.new⟩

/-- The internal state of each process (src/state.rs `State`): the mailbox
receive-end (opaque, type `Mb`), the error table, the resource bundle, the
WASI context and the optional raw bytes of the module being loaded. -/
structure State (Mb Err C E M P : Type) where
  mailbox : Mb
  errors : HashMapId Err
  resources : Resources C E M P
  wasi : WasiCtx
  module_loaded : Option (List Nat)

/-- `State::new(mailbox)`: fresh error table, default resources, a WASI
context built from a fresh builder with stdio inherited, no loaded
module. -/
def State.new {Mb Err C E M P : Type} (mailbox : Mb) : State Mb Err C E M P :=
  ⟨mailbox, HashMapId.new, Resources.default C E M P,
    (WasiCtxBuilder.new.inherit_stdio).build, none⟩

/-! ### Lemmas about runs of table operations -/

theorem storeGet_eraseKey {T : Type} (a : Nat) (s : List (Nat × T)) (j : Nat) :
    storeGet (eraseKey a s) j = if a = j then none else storeGet s j := by
  induction s with
  | nil => simp [eraseKey, storeGet]
  | cons p rest ih =>
    obtain ⟨k, v⟩ := p
    by_cases hk : k = a
    · subst hk
      by_cases hj : k = j
      · subst hj
        simp [eraseKey, storeGet, ih]
      · simp [eraseKey, storeGet, hj, ih]
    · by_cases hj : a = j
      · subst hj
        simp [eraseKey, storeGet, hk, ih, Ne.symm hk]
      · simp [eraseKey, storeGet, hk, hj, ih]

theorem addsCount_append {T : Type} (a b : List (TableOp T)) :
    addsCount (a ++ b) = addsCount a + addsCount b := by
  induction a with
  | nil => simp [addsCount]
  | cons op rest ih =>
    cases op with
    | add x =>
      show addsCount (rest ++ b) + 1 = addsCount rest + 1 + addsCount b
      rw [ih]; omega
    | remove j =>
      show addsCount (rest ++ b) = addsCount rest + addsCount b
      exact ih

theorem applyOps_append {T : Type} (a b : List (TableOp T)) :
    ∀ m : HashMapId T, applyOps m (a ++ b) = applyOps (applyOps m a) b := by
  induction a with
  | nil => intro m; simp [applyOps]
  | cons op rest ih => intro m; cases op <;> simp [applyOps, ih]

theorem applyOps_id_seed {T : Type} (ops : List (TableOp T)) :
    ∀ (k : Nat) (m : HashMapId T), m.id_seed = k % U64 →
      (applyOps m ops).id_seed = (k + addsCount ops) % U64 := by
  induction ops with
  | nil => intro k m h; simpa [applyOps, addsCount] using h
  | cons op rest ih =>
    intro k m h
    cases op with
    | add x =>
      have h1 : ((m.add x).2).id_seed = (k + 1) % U64 := by
        simp [HashMapId.add, h, Nat.mod_add_mod]
      have := ih (k + 1) (m.add x).2 h1
      simp only [applyOps, addsCount] at *
      rw [this]; ring_nf
    | remove j =>
      have h1 : ((m.remove j).2).id_seed = k % U64 := h
      have := ih k (m.remove j).2 h1
      simpa [applyOps, addsCount] using this

theorem traceGet_none_of_ge {T : Type} (ops : List (TableOp T)) :
    ∀ k id, k + addsCount ops ≤ id → traceGet k ops id = none := by
  induction ops with
  | nil => intro k id _; simp [traceGet]
  | cons op rest ih =>
    intro k id h
    cases op with
    | add x =>
      simp only [addsCount] at h
      have hk : ¬ k = id := by omega
      simp only [traceGet, hk, if_false]
      exact ih (k + 1) id (by omega)
    | remove j =>
      simp only [addsCount] at h
      exact ih k id h

/-- Central characterization: running `ops` from a state whose seed is
`k % U64` (with `k` adds already performed, no key `≥ k` bound and no
overflow possible along the run) yields a table whose lookup agrees with
the trace-level `traceGet` on fresh IDs and with removal-masked lookup of
the starting store on old IDs. -/
theorem applyOps_storeGet {T : Type} (ops : List (TableOp T)) :
    ∀ (k : Nat) (m : HashMapId T) (id : Nat),
      m.id_seed = k % U64 →
      k + addsCount ops ≤ U64 →
      (∀ j, k ≤ j → storeGet m.store j = none) →
      storeGet (applyOps m ops).store id =
        if k ≤ id then traceGet k ops id
        else if hasRemove ops id then none else storeGet m.store id := by
  induction ops with
  | nil =>
    intro k m id _ _ hlo
    by_cases hid : k ≤ id
    · simp [applyOps, traceGet, hid, hlo id hid]
    · simp [applyOps, hasRemove, hid]
  | cons op rest ih =>
    intro k m id hseed hk hlo
    cases op with
    | add x =>
      have hklt : k < U64 := by simp only [addsCount] at hk; omega
      have hseedk : m.id_seed = k := by rw [hseed, Nat.mod_eq_of_lt hklt]
      have hseed1 : ((m.add x).2).id_seed = (k + 1) % U64 := by
        simp [HashMapId.add, hseedk]
      have hstore1 : ((m.add x).2).store = storeInsert k x m.store := by
        simp [HashMapId.add, hseedk]
      have hk1 : (k + 1) + addsCount rest ≤ U64 := by
        simp only [addsCount] at hk; omega
      have hlo1 : ∀ j, k + 1 ≤ j → storeGet ((m.add x).2).store j = none := by
        intro j hj
        rw [hstore1]
        have hkj : ¬ k = j := by omega
        simp only [storeInsert, storeGet, hkj, if_false, storeGet_eraseKey, hkj]
        exact hlo j (by omega)
      have hmain := ih (k + 1) (m.add x).2 id hseed1 hk1 hlo1
      have happ : applyOps m (TableOp.add x :: rest) = applyOps (m.add x).2 rest := rfl
      rw [happ, hmain]
      rcases Nat.lt_trichotomy id k with hlt | heq | hgt
      · have h1 : ¬ k + 1 ≤ id := by omega
        have h2 : ¬ k ≤ id := by omega
        have hkid : ¬ k = id := by omega
        simp only [h1, if_false, h2, hasRemove]
        rw [hstore1]
        simp only [storeInsert, storeGet, hkid, if_false, storeGet_eraseKey, hkid, if_false]
      · subst heq
        have h1 : ¬ id + 1 ≤ id := by omega
        have h2 : id ≤ id := le_refl id
        simp only [h1, if_false, h2, if_true, traceGet, if_pos rfl]
        rw [hstore1]
        simp only [storeInsert, storeGet, if_pos rfl]
        by_cases hr : hasRemove rest id = true <;> simp [hr]
      · have h1 : k + 1 ≤ id := hgt
        have h2 : k ≤ id := by omega
        have hkid : ¬ k = id := by omega
        simp only [h1, if_true, h2, traceGet, hkid, if_false]
    | remove j =>
      have hseed1 : ((m.remove j).2).id_seed = k % U64 := hseed
      have hstore1 : ((m.remove j).2).store = eraseKey j m.store := rfl
      have hk1 : k + addsCount rest ≤ U64 := by simp only [addsCount] at hk; omega
      have hlo1 : ∀ i, k ≤ i → storeGet ((m.remove j).2).store i = none := by
        intro i hi
        rw [hstore1, storeGet_eraseKey]
        by_cases hji : j = i <;> simp [hji, hlo i hi]
      have hmain := ih k (m.remove j).2 id hseed1 hk1 hlo1
      have happ : applyOps m (TableOp.remove j :: rest) = applyOps (m.remove j).2 rest := rfl
      rw [happ, hmain]
      by_cases hid : k ≤ id
      · simp only [hid, if_true, traceGet]
      · simp only [hid, if_false, hasRemove, hstore1, storeGet_eraseKey]
        by_cases hji : j = id
        · subst hji
          simp only [beq_self_eq_true, Bool.true_or, if_true, if_pos rfl]
          by_cases hr : hasRemove rest j = true <;> simp [hr]
        · have : (j == id) = false := by simp [hji]
          simp only [this, Bool.false_or, hji, if_false]

theorem issuedIds_lt {T : Type} (ops : List (TableOp T)) :
    ∀ (k : Nat) (m : HashMapId T), m.id_seed = k % U64 → k + addsCount ops ≤ U64 →
      ∀ x ∈ issuedIds m ops, x < k + addsCount ops := by
  induction ops with
  | nil => intro k m _ _ x hx; simp [issuedIds] at hx
  | cons op rest ih =>
    intro k m hseed hk x hx
    cases op with
    | add it =>
      have hklt : k < U64 := by simp only [addsCount] at hk; omega
      have hseedk : m.id_seed = k := by rw [hseed, Nat.mod_eq_of_lt hklt]
      have hseed1 : ((m.add it).2).id_seed = (k + 1) % U64 := by
        simp [HashMapId.add, hseedk]
      have hk1 : (k + 1) + addsCount rest ≤ U64 := by
        simp only [addsCount] at hk; omega
      simp only [issuedIds, List.mem_cons] at hx
      rcases hx with hx | hx
      · subst hx
        simp only [HashMapId.add, hseedk, addsCount]
        omega
      · have := ih (k + 1) (m.add it).2 hseed1 hk1 x hx
        simp only [addsCount]
        omega
    | remove j =>
      have hk1 : k + addsCount rest ≤ U64 := by simp only [addsCount] at hk; omega
      simp only [issuedIds] at hx
      have := ih k (m.remove j).2 hseed hk1 x hx
      simpa [addsCount] using this

/-! ### Claims C1, C2, C9: the resource table -/

/-- Claim C1: for every sequence of add/remove operations on a `HashMapId`
run from a fresh table (with no u64 counter overflow along the run),
`get id` returns the stored item if and only if `id` was returned by an
earlier `add` and has not since been removed (`traceGet 0 ops id` is exactly
that trace-level description, item included); and an ID that was issued and
then became unretrievable (removed) is never made valid again by any later
operations — removed IDs are never reissued. -/
theorem c1_get_iff_added_not_removed {T : Type}
    (ops more : List (TableOp T)) (id : Nat)
    (h : addsCount (ops ++ more) ≤ U64) :
    (applyOps HashMapId.new ops).get id = traceGet 0 ops id ∧
    (id < addsCount ops → (applyOps HashMapId.new ops).get id = none →
      (applyOps HashMapId.new (ops ++ more)).get id = none) := by
  have hops : addsCount ops ≤ U64 := by
    rw [addsCount_append] at h; omega
  have hnew_seed : (HashMapId.new (T := T)).id_seed = 0 % U64 := by
    simp [HashMapId.new]
  have hnew_lo : ∀ j, 0 ≤ j → storeGet (HashMapId.new (T := T)).store j = none := by
    intro j _; simp [HashMapId.new, storeGet]
  have hbase : ∀ i, (applyOps (HashMapId.new (T := T)) ops).get i = traceGet 0 ops i := by
    intro i
    have := applyOps_storeGet ops 0 HashMapId.new i hnew_seed (by omega) hnew_lo
    simpa [HashMapId.get, Nat.zero_le] using this
  refine ⟨hbase id, ?_⟩
  intro hid hnone
  rw [applyOps_append]
  set m₁ := applyOps (HashMapId.new (T := T)) ops with hm₁
  have hseed₁ : m₁.id_seed = addsCount ops % U64 := by
    simpa using applyOps_id_seed ops 0 HashMapId.new hnew_seed
  have hlo₁ : ∀ j, addsCount ops ≤ j → storeGet m₁.store j = none := by
    intro j hj
    have := hbase j
    rw [HashMapId.get] at this
    rw [this]
    exact traceGet_none_of_ge ops 0 j (by omega)
  have hk₁ : addsCount ops + addsCount more ≤ U64 := by
    rw [addsCount_append] at h; omega
  have := applyOps_storeGet more (addsCount ops) m₁ id hseed₁ hk₁ hlo₁
  have hnotle : ¬ addsCount ops ≤ id := by omega
  rw [HashMapId.get] at hnone ⊢
  rw [this, if_neg hnotle]
  by_cases hr : hasRemove more id = true <;> simp [hr, hnone]

/-- Witness for C1 at a concrete run: after `add 10; add 11; remove 0`,
ID 0 stays unretrievable even after a further `add 12`. -/
theorem c1_witness :
    (applyOps HashMapId.new
      ([TableOp.add 10, TableOp.add 11, TableOp.remove 0] ++ [TableOp.add 12])).get 0 = none :=
  (c1_get_iff_added_not_removed
      [TableOp.add 10, TableOp.add 11, TableOp.remove 0] [TableOp.add 12] 0
      (by decide)).2 (by decide) (by decide)

/-- Claim C2: after any sequence of add/remove operations (no counter
overflow), `add item` succeeds — the fresh ID immediately retrieves the
item — and the returned ID is strictly greater than every ID previously
returned by `add` on that table, regardless of interleaved removes. -/
theorem c2_add_fresh_strictly_greater {T : Type} (ops : List (TableOp T)) (item : T)
    (h : addsCount ops < U64) :
    (((applyOps HashMapId.new ops).add item).2).get
        (((applyOps HashMapId.new ops).add item).1) = some item ∧
    ∀ prev ∈ issuedIds HashMapId.new ops,
      prev < ((applyOps HashMapId.new ops).add item).1 := by
  have hnew_seed : (HashMapId.new (T := T)).id_seed = 0 % U64 := by
    simp [HashMapId.new]
  have hseed : (applyOps (HashMapId.new (T := T)) ops).id_seed = addsCount ops % U64 := by
    simpa using applyOps_id_seed ops 0 HashMapId.new hnew_seed
  have hret : ((applyOps (HashMapId.new (T := T)) ops).add item).1 = addsCount ops := by
    simp [HashMapId.add, hseed, Nat.mod_eq_of_lt h]
  constructor
  · simp [HashMapId.add, HashMapId.get, storeInsert, storeGet]
  · intro prev hprev
    rw [hret]
    have := issuedIds_lt ops 0 HashMapId.new hnew_seed (by omega) prev hprev
    omega

/-- Witness for C2 at a concrete run: after `add 5; remove 0; add 6`, adding
`7` issues an ID under which `7` is retrievable. -/
theorem c2_witness :
    (((applyOps HashMapId.new [TableOp.add 5, TableOp.remove 0, TableOp.add 6]).add 7).2).get
        (((applyOps HashMapId.new [TableOp.add 5, TableOp.remove 0, TableOp.add 6]).add 7).1) =
      some 7 :=
  (c2_add_fresh_strictly_greater [TableOp.add 5, TableOp.remove 0, TableOp.add 6] 7
    (by decide)).1

/-- Claim C9: IDs are assigned consecutively from 0 — after a run containing
`addsCount ops` adds (no counter overflow), the next `add` returns exactly
`addsCount ops`, regardless of interleaved removes; and `remove` never
changes the allocation counter. -/
theorem c9_consecutive_ids_remove_keeps_seed {T : Type} (ops : List (TableOp T))
    (item : T) (m : HashMapId T) (j : Nat) (h : addsCount ops < U64) :
    ((applyOps HashMapId.new ops).add item).1 = addsCount ops ∧
    ((m.remove j).2).id_seed = m.id_seed := by
  have hnew_seed : (HashMapId.new (T := T)).id_seed = 0 % U64 := by
    simp [HashMapId.new]
  have hseed : (applyOps (HashMapId.new (T := T)) ops).id_seed = addsCount ops % U64 := by
    simpa using applyOps_id_seed ops 0 HashMapId.new hnew_seed
  exact ⟨by simp [HashMapId.add, hseed, Nat.mod_eq_of_lt h], rfl⟩

/-- Witness for C9 at a concrete run with two adds and an interleaved
remove: the third add returns ID 2. -/
theorem c9_witness :
    ((applyOps HashMapId.new [TableOp.add 5, TableOp.remove 0, TableOp.add 6]).add 7).1 = 2 :=
  (c9_consecutive_ids_remove_keeps_seed [TableOp.add 5, TableOp.remove 0, TableOp.add 6]
    7 HashMapId.new 0 (by decide)).1

/-! ### Claims C3, C4, C5: the distributed host functions -/

theorem nodeBytes_length (ids : List Nat) : (nodeBytes ids).length = 8 * ids.length := by
  induction ids with
  | nil => simp [nodeBytes]
  | cons x rest ih =>
    have h1 : nodeBytes (x :: rest) = u64Bytes x ++ nodeBytes rest := by
      simp [nodeBytes]
    have h2 : (u64Bytes x).length = 8 := by simp [u64Bytes]
    rw [h1, List.length_append, ih, h2, List.length_cons]
    ring

/-- Counterexample to claim C3: with one registered node and `len = 2`, the
destination range `[0, 16)` fits the 16-byte instance memory, yet the call
does not return status 2 with a `min(len, node_count)` clamped copy — the
`copy_from_slice` length check fails (8·2 ≠ 8·1) and the call panics. -/
theorem c3_counterexample :
    0 + 8 * 2 ≤ (List.replicate 16 0).length ∧
    get_nodes (some ⟨[5], 1⟩) (List.replicate 16 0) 0 2 = HostResult.panic := by
  decide

/-- Claim C3 (amended): `get_nodes(ptr, len)` traps iff
`[ptr, ptr + 8*len)` is not fully contained in the instance memory; when
the range is contained it returns status 2 having copied the registry's
node identifiers to `ptr` in enumeration order (8 bytes each) exactly when
`len` equals the registry's node count, and when `len` differs from the
node count the call aborts (Rust panic in `copy_from_slice`) instead of
copying `min(len, node_count)` identifiers. -/
theorem c3_get_nodes_amended (d : Option DistributedProcessState) (mem : List Nat)
    (ptr len : Nat) :
    (get_nodes d mem ptr len = HostResult.trap ↔ ¬ ptr + 8 * len ≤ mem.length) ∧
    (ptr + 8 * len ≤ mem.length → (nodeIdsOf d).length = len →
      get_nodes d mem ptr len =
        HostResult.ok (writeBytes mem ptr (nodeBytes (nodeIdsOf d))) 2) ∧
    (ptr + 8 * len ≤ mem.length → (nodeIdsOf d).length ≠ len →
      get_nodes d mem ptr len = HostResult.panic) := by
  have hlen : (nodeBytes (nodeIdsOf d)).length = 8 * (nodeIdsOf d).length :=
    nodeBytes_length (nodeIdsOf d)
  refine ⟨?_, ?_, ?_⟩
  · by_cases hb : ptr + 8 * len ≤ mem.length
    · simp only [get_nodes, hb, if_true, iff_false, Decidable.not_not]
      by_cases hc : (nodeBytes (nodeIdsOf d)).length = 8 * len <;> simp [hc]
    · simp [get_nodes, hb]
  · intro hb hc
    have : (nodeBytes (nodeIdsOf d)).length = 8 * len := by rw [hlen, hc]
    simp [get_nodes, hb, this]
  · intro hb hc
    have : ¬ (nodeBytes (nodeIdsOf d)).length = 8 * len := by
      rw [hlen]; omega
    simp [get_nodes, hb, this]

/-- Witness for C3 (amended) at a concrete input: two registered nodes,
`len = 2`, a 16-byte memory — the call succeeds with status 2. -/
theorem c3_witness :
    get_nodes (some ⟨[5, 7], 3⟩) (List.replicate 16 0) 0 2 =
      HostResult.ok (writeBytes (List.replicate 16 0) 0 (nodeBytes [5, 7])) 2 :=
  (c3_get_nodes_amended (some ⟨[5, 7], 3⟩) (List.replicate 16 0) 0 2).2.1
    (by decide) (by decide)

/-- Claim C4: `nodes_count` returns exactly the length of the registry's
node-identifier list (whenever that count fits in a `u32`, as required by
the `as u32` cast), and returns 0 — a normal return, not an error — when
the instance has no distributed capability configured. -/
theorem c4_nodes_count (d : DistributedProcessState) (h : d.nodes.length < U32) :
    nodes_count (some d) = d.node_ids.length ∧ nodes_count none = 0 := by
  constructor
  · simp [nodes_count, DistributedProcessState.node_count,
      DistributedProcessState.node_ids, Nat.mod_eq_of_lt h]
  · simp [nodes_count]

/-- Witness for C4 at a concrete registry with three nodes. -/
theorem c4_witness : nodes_count (some ⟨[1, 2, 3], 9⟩) = 3 ∧ nodes_count none = 0 :=
  ⟨(c4_nodes_count ⟨[1, 2, 3], 9⟩ (by decide)).1,
    (c4_nodes_count ⟨[1, 2, 3], 9⟩ (by decide)).2⟩

/-- Counterexample to claim C5: an instance whose distributed capability is
attached with registry self-entry 0 also gets `node_id() = 0`, so a zero
return does not imply the capability is absent. -/
theorem c5_counterexample :
    node_id (some ⟨[3], 0⟩) = 0 ∧
    (some (⟨[3], 0⟩ : DistributedProcessState)) ≠ none := by
  decide

/-- Claim C5 (amended): `node_id` returns the identifier recorded as the
registry's self-entry whenever a distributed capability is attached, and 0
when none is attached; hence it returns 0 exactly when no capability is
attached or the attached registry's self-entry is itself 0. -/
theorem c5_node_id_amended (d : Option DistributedProcessState) :
    (node_id d = 0 ↔ d = none ∨ ∃ s, d = some s ∧ s.selfId = 0) ∧
    ∀ s, d = some s → node_id d = DistributedProcessState.node_id s := by
  cases d with
  | none => simp [node_id]
  | some s =>
    refine ⟨?_, ?_⟩
    · simp [node_id, DistributedProcessState.node_id]
    · intro s' hs
      cases hs
      rfl

/-- Witness for C5 (amended) at a concrete attached registry with
self-entry 9. -/
theorem c5_witness : node_id (some ⟨[3], 9⟩) = 9 :=
  (c5_node_id_amended (some ⟨[3], 9⟩)).2 ⟨[3], 9⟩ rfl

/-! ### Claims C6, C7, C10: the legacy WASI shim -/

/-- Claim C6: `fd_write` on descriptor 1 with byte vectors "ab","cd"
returns success reporting 4 bytes written and appends `abcd` to standard
output; on descriptor 0 it returns the invalid-descriptor status with zero
bytes written and unchanged streams; on any descriptor other than 0, 1, 2
the call fatally aborts (`none`) rather than returning a status. -/
theorem c6_fd_write (s : StdStreams) (fd : Nat) (ciovs : List (List Nat))
    (h0 : fd ≠ 0) (h1 : fd ≠ 1) (h2 : fd ≠ 2) :
    fd_write s 1 [[97, 98], [99, 100]] =
      some (WASI_ESUCCESS, 4, ⟨s.stdoutBytes ++ [97, 98, 99, 100], s.stderrBytes⟩) ∧
    fd_write s 0 ciovs = some (WASI_EINVAL, 0, s) ∧
    fd_write s fd ciovs = none := by
  refine ⟨rfl, rfl, ?_⟩
  match fd with
  | 0 => exact absurd rfl h0
  | 1 => exact absurd rfl h1
  | 2 => exact absurd rfl h2
  | n + 3 => rfl

/-- Witness for C6 with empty streams and the rejected descriptor 7. -/
theorem c6_witness :
    fd_write ⟨[], []⟩ 1 [[97, 98], [99, 100]] =
      some (WASI_ESUCCESS, 4, ⟨[97, 98, 99, 100], []⟩) ∧
    fd_write ⟨[], []⟩ 0 [[97, 98]] = some (WASI_EINVAL, 0, ⟨[], []⟩) ∧
    fd_write ⟨[], []⟩ 7 [[97, 98]] = none :=
  c6_fd_write ⟨[], []⟩ 7 [[97, 98]] (by decide) (by decide) (by decide)

theorem entryOffsets_length (entries : List (List Nat)) :
    ∀ base, (entryOffsets base entries).length = entries.length := by
  induction entries with
  | nil => intro base; simp [entryOffsets]
  | cons kv rest ih => intro base; simp [entryOffsets, ih]

theorem terminatedBytes_length (entries : List (List Nat)) :
    (terminatedBytes entries).length = (entries.map fun kv => kv.length + 1).sum := by
  induction entries with
  | nil => simp [terminatedBytes]
  | cons kv rest ih =>
    have h1 : terminatedBytes (kv :: rest) = (kv ++ [0]) ++ terminatedBytes rest := by
      simp [terminatedBytes]
    rw [h1, List.length_append, ih]
    simp

/-- The copying loop succeeds exactly when the two buffers have room for
every entry, and then writes the offsets and the terminated byte image. -/
theorem writeEntries_eq (entries : List (List Nat)) :
    ∀ base slots cap,
      writeEntries base entries slots cap =
        if entries.length ≤ slots ∧ (entries.map fun kv => kv.length + 1).sum ≤ cap then
          some (entryOffsets base entries, terminatedBytes entries)
        else none := by
  induction entries with
  | nil =>
    intro base slots cap
    simp [writeEntries, entryOffsets, terminatedBytes]
  | cons kv rest ih =>
    intro base slots cap
    by_cases hs : slots = 0
    · subst hs
      have hfalse :
          ¬ ((kv :: rest).length ≤ 0 ∧
            ((kv :: rest).map fun kv => kv.length + 1).sum ≤ cap) := by
        simp
      simp [writeEntries, hfalse]
    · by_cases hc : kv.length + 1 ≤ cap
      · have hstep : writeEntries base (kv :: rest) slots cap =
            (writeEntries (base + kv.length + 1) rest (slots - 1)
              (cap - (kv.length + 1))).map
              fun pb => (base :: pb.1, (kv ++ [0]) ++ pb.2) := by
          simp [writeEntries, hs, hc]
        rw [hstep, ih]
        by_cases hrest : rest.length ≤ slots - 1 ∧
            (rest.map fun kv => kv.length + 1).sum ≤ cap - (kv.length + 1)
        · have houter : (kv :: rest).length ≤ slots ∧
              ((kv :: rest).map fun kv => kv.length + 1).sum ≤ cap := by
            obtain ⟨ha, hb⟩ := hrest
            simp only [List.length_cons, List.map_cons, List.sum_cons]
            omega
          rw [if_pos hrest, if_pos houter]
          simp [entryOffsets, terminatedBytes]
        · have houter : ¬ ((kv :: rest).length ≤ slots ∧
              ((kv :: rest).map fun kv => kv.length + 1).sum ≤ cap) := by
            simp only [List.length_cons, List.map_cons, List.sum_cons]
            simp only [not_and] at hrest ⊢
            intro ha
            have := hrest (by omega)
            omega
          rw [if_neg hrest, if_neg houter]
          simp
      · have houter : ¬ ((kv :: rest).length ≤ slots ∧
            ((kv :: rest).map fun kv => kv.length + 1).sum ≤ cap) := by
          simp only [List.length_cons, List.map_cons, List.sum_cons, not_and]
          intro ha
          omega
        have hnone : writeEntries base (kv :: rest) slots cap = none := by
          simp [writeEntries, hs, hc]
        rw [hnone, if_neg houter]

/-- Claim C7: with buffers sized per the `*_sizes_get` report
(`slots ≥` reported count, `cap ≥` reported total), `args_get` writes
exactly the snapshot's entries — one pointer per entry at the consecutive
arena offsets, each entry's bytes plus its terminator consecutively in the
arena — the pointer count equals the reported count, the arena bytes total
the reported total, and `environ_get` is the very same loop; with a buffer
whose end either cursor would overrun, the call traps. -/
theorem c7_args_environ_roundtrip (e : WasiEnv) (slots cap : Nat)
    (hslots : (args_sizes_get e).1 ≤ slots) (hcap : (args_sizes_get e).2 ≤ cap) :
    args_get e slots cap = some (entryOffsets 0 e.entries, terminatedBytes e.entries) ∧
    environ_get e slots cap = args_get e slots cap ∧
    environ_sizes_get e = args_sizes_get e ∧
    (entryOffsets 0 e.entries).length = (args_sizes_get e).1 ∧
    (terminatedBytes e.entries).length = (args_sizes_get e).2 ∧
    (∀ slots2 cap2, slots2 < (args_sizes_get e).1 ∨ cap2 < (args_sizes_get e).2 →
      args_get e slots2 cap2 = none) := by
  have hs : (args_sizes_get e).1 = e.entries.length := rfl
  have ht : (args_sizes_get e).2 = (e.entries.map fun kv => kv.length + 1).sum := rfl
  rw [hs] at hslots
  rw [ht] at hcap
  refine ⟨?_, rfl, rfl, ?_, ?_, ?_⟩
  · rw [args_get, writeEntries_eq, if_pos ⟨hslots, hcap⟩]
  · rw [hs]; exact entryOffsets_length e.entries 0
  · rw [ht]; exact terminatedBytes_length e.entries
  · intro slots2 cap2 hlt
    rw [hs, ht] at hlt
    rw [args_get, writeEntries_eq, if_neg]
    intro ⟨ha, hb⟩
    omega

/-- Witness for C7 on the snapshot ["hi", ""] with exactly-fitting
buffers: 2 pointer slots and a 4-byte arena. -/
theorem c7_witness :
    args_get ⟨[[104, 105], []]⟩ 2 4 =
      some (entryOffsets 0 [[104, 105], []], terminatedBytes [[104, 105], []]) :=
  (c7_args_environ_roundtrip ⟨[[104, 105], []]⟩ 2 4 (by decide) (by decide)).1

/-- Claim C10: `fd_close` returns the success status 0 for every descriptor
argument — including descriptor 7, which `fd_write` fatally rejects — it is
a total function (never traps), and it performs no state change. -/
theorem c10_fd_close (s : WasiState) (fd : Nat) (streams : StdStreams) :
    fd_close s fd = (WASI_ESUCCESS, s) ∧ WASI_ESUCCESS = 0 ∧
    fd_write streams 7 [] = none :=
  ⟨rfl, rfl, rfl⟩

/-! ### Claim C8: `State::new` -/

/-- Claim C8: `State::new(mailbox)` produces a state in which the error
table and all four resource tables are empty (allocation seed 0 and every
lookup misses), the WASI shim context is freshly built (new builder,
stdio inherited), the `module_loaded` slot is unset, and the mailbox is
the one passed in. -/
theorem c8_state_new {Mb Err C E M P : Type} (mb : Mb) (id : Nat) :
    (State.new mb : State Mb Err C E M P).errors.get id = none ∧
    (State.new mb : State Mb Err C E M P).errors.id_seed = 0 ∧
    (State.new mb : State Mb Err C E M P).resources.configs.get id = none ∧
    (State.new mb : State Mb Err C E M P).resources.configs.id_seed = 0 ∧
    (State.new mb : State Mb Err C E M P).resources.environments.get id = none ∧
    (State.new mb : State Mb Err C E M P).resources.environments.id_seed = 0 ∧
    (State.new mb : State Mb Err C E M P).resources.modules.get id = none ∧
    (State.new mb : State Mb Err C E M P).resources.modules.id_seed = 0 ∧
    (State.new mb : State Mb Err C E M P).resources.processes.get id = none ∧
    (State.new mb : State Mb Err C E M P).resources.processes.id_seed = 0 ∧
    (State.new mb : State Mb Err C E M P).resources = Resources.default C E M P ∧
    (State.new mb : State Mb Err C E M P).wasi = WasiCtxBuilder.new.inherit_stdio.build ∧
    (State.new mb : State Mb Err C E M P).module_loaded = none ∧
    (State.new mb : State Mb Err C E M P).mailbox = mb :=
  ⟨rfl, rfl, rfl, rfl, rfl, rfl, rfl, rfl, rfl, rfl, rfl, rfl, rfl, rfl⟩

end Lunatic
